import Mathlib

/-!
Verification of the GSEA engine of the pathways-analysis repository.

The definitions below are a shallow embedding of the Python sources under
src/methods/gsea (gsea.py, shufflers.py, signatures.py, multiprocess.py)
and of the supporting data model in src/models.py.  Python floats are
modelled as rationals, fallible code returns Except, warnings are recorded
as data, and every use of the global random-number generator is replaced by
an explicit oracle parameter (a stream indexed by how many draws happened
so far), so that all definitions stay executable.
-/

/-- Python exceptions that the embedded code can raise. -/
inductive PyErr where
  | zeroDivision
  | typeError
  | keyError
  | assertionError
  | indexError
  deriving DecidableEq

/-- Genes are interned (models.py, class Gene): identity is an integer id,
equal names give the same id, so a gene is embedded as its id. -/
abbrev GeneId := ℕ

/-- One entry of a ranked gene list: (gene, rank). -/
abbrev RankedList := List (GeneId × ℚ)

/-- A gene set as used by the scorer (signatures.py, class GeneSet):
a name plus the set of member gene ids (gene_ids; membership in
GeneSet.__contains__ tests the id set). -/
structure GeneSet where
  name : String
  genes : Finset GeneId
  deriving DecidableEq

/-- gsea.py, is_more_extreme: is x more extreme (more negative or more
positive) than the provided enrichment? -/
def is_more_extreme (x enrichment : ℚ) : Bool :=
  decide (|x| > |enrichment|)

/-- gsea.py, ScoreDistribution: empirical null distribution split into a
negative and a positive bucket (the two lists grow by append). -/
structure ScoreDistribution where
  negative_scores : List ℚ
  positive_scores : List ℚ
  deriving DecidableEq

namespace ScoreDistribution

/-- ScoreDistribution.__iter__: chain(negative_scores, positive_scores). -/
def toList (d : ScoreDistribution) : List ℚ :=
  d.negative_scores ++ d.positive_scores

/-- ScoreDistribution.__len__: len(positive_scores) + len(negative_scores). -/
def len (d : ScoreDistribution) : ℕ :=
  d.positive_scores.length + d.negative_scores.length

/-- ScoreDistribution.append.  A score of exactly 0 is assigned to the
bucket picked by random.choice; the oracle `choice` is the stream of those
draws and `k` counts how many draws were consumed so far (true = the
positive bucket was chosen).  Returns the new distribution and counter. -/
def append (d : ScoreDistribution) (choice : ℕ → Bool) (k : ℕ) (score : ℚ) :
    ScoreDistribution × ℕ :=
  if score > 0 then
    ({ d with positive_scores := d.positive_scores ++ [score] }, k)
  else if score < 0 then
    ({ d with negative_scores := d.negative_scores ++ [score] }, k)
  else if choice k then
    ({ d with positive_scores := d.positive_scores ++ [score] }, k + 1)
  else
    ({ d with negative_scores := d.negative_scores ++ [score] }, k + 1)

/-- The loop in ScoreDistribution.__init__: append each score in turn. -/
def buildAux (choice : ℕ → Bool) :
    List ℚ → ScoreDistribution → ℕ → ScoreDistribution × ℕ
  | [], d, k => (d, k)
  | s :: rest, d, k =>
    let dk := d.append choice k s
    buildAux choice rest dk.1 dk.2

/-- ScoreDistribution(scores): start from two empty buckets and append
every score of the input list. -/
def build (choice : ℕ → Bool) (k : ℕ) (scores : List ℚ) :
    ScoreDistribution × ℕ :=
  buildAux choice scores ⟨[], []⟩ k

end ScoreDistribution

/-- gsea.py, calculate_enrichment_score: the loop accumulating
hit_denominator (N_R in the publication): sum of |rank^p| over the genes
of the ranked list that belong to the gene set. -/
def hit_denominator (p : ℕ) (ranked_list : RankedList) (S : Finset GeneId) : ℚ :=
  ranked_list.foldl
    (fun acc gr => if gr.1 ∈ S then acc + |gr.2 ^ p| else acc) 0

/-- gsea.py, calculate_enrichment_score: the walk over the ranked list.
On a hit running_sum_statistic_hits grows by rank^p / hit_denominator; on
a miss running_sum_statistic_misses SHRINKS by decrement (the source has
`-=`); diff = hits - misses and the signed diff of largest absolute value
is kept. -/
def esWalk (p : ℕ) (hd decrement : ℚ) (S : Finset GeneId) :
    RankedList → ℚ → ℚ → ℚ → ℚ
  | [], _, _, maximum_deviation => maximum_deviation
  | gr :: rest, hits, misses, maximum_deviation =>
    let hits' := if gr.1 ∈ S then hits + gr.2 ^ p / hd else hits
    let misses' := if gr.1 ∈ S then misses else misses - decrement
    let diff := hits' - misses'
    let maximum_deviation' :=
      if |diff| > |maximum_deviation| then diff else maximum_deviation
    esWalk p hd decrement S rest hits' misses' maximum_deviation'

/-- gsea.py, GeneralisedGSEA.calculate_enrichment_score.  The exponent p
(ranked_list_weight) is modelled as a natural number (default 1).  The
returned Bool records whether warn() was called (the degenerate
hit_denominator == 0 path).  decrement = 1 / (n - nh) raises
ZeroDivisionError when n == nh; this is checked before anything else, as
in the source.  The Python ints n, nh subtract in ℤ. -/
def calculate_enrichment_score (p : ℕ) (ranked_list : RankedList)
    (S : Finset GeneId) : Except PyErr (Bool × ℚ) :=
  let n := ranked_list.length
  let nh := S.card
  if (n : ℤ) - (nh : ℤ) = 0 then .error .zeroDivision
  else
    let decrement : ℚ := 1 / ((n : ℚ) - (nh : ℚ))
    let hd := hit_denominator p ranked_list S
    if hd = 0 then
      .ok (true, 0)
    else
      .ok (false, esWalk p hd decrement S ranked_list 0 0 0)

/-- The walk as WORDED BY THE SPEC (spec.md §4.2): on a miss
running_miss_sum INCREASES by 1/(n-nh), diff = running_hit_sum -
running_miss_sum, and the signed diff of largest absolute value is the
enrichment score.  This definition follows the spec sentence, to be
compared against the source walk above. -/
def specWalk (p : ℕ) (hd decrement : ℚ) (S : Finset GeneId) :
    RankedList → ℚ → ℚ → ℚ → ℚ
  | [], _, _, peak => peak
  | gr :: rest, hits, misses, peak =>
    let hits' := if gr.1 ∈ S then hits + gr.2 ^ p / hd else hits
    let misses' := if gr.1 ∈ S then misses else misses + decrement
    let diff := hits' - misses'
    let peak' := if |diff| > |peak| then diff else peak
    specWalk p hd decrement S rest hits' misses' peak'

/-- Enrichment score as the spec words it (spec.md §4.2), for a list of n
genes and a gene set of nh members with non-zero hit denominator. -/
def enrichment_score_per_spec (p : ℕ) (ranked_list : RankedList)
    (S : Finset GeneId) : ℚ :=
  let n := ranked_list.length
  let nh := S.card
  let decrement : ℚ := 1 / ((n : ℚ) - (nh : ℚ))
  let hd := hit_denominator p ranked_list S
  specWalk p hd decrement S ranked_list 0 0 0

/-- gsea.py, GeneralisedGSEA.estimate_significance_level: pick the
positive bucket when the enrichment score is > 0, else the negative one;
count random scores of larger absolute value; empty bucket gives 0. -/
def estimate_significance_level (enrichment_score : ℚ)
    (null_distribution : ScoreDistribution) : ℚ :=
  let null :=
    if enrichment_score > 0 then null_distribution.positive_scores
    else null_distribution.negative_scores
  let abs_score := |enrichment_score|
  let hits : ℕ :=
    null.foldl (fun acc x => if |x| > abs_score then acc + 1 else acc) 0
  if null.isEmpty then 0
  else (hits : ℚ) / (null.length : ℚ)

/-! ## Helper lemmas for the scorer -/

/-- A gene set with no members collects no hits: the hit denominator is 0. -/
theorem hit_denominator_empty (p : ℕ) (rl : RankedList) :
    hit_denominator p rl (∅ : Finset GeneId) = 0 := by
  suffices h : ∀ init : ℚ,
      rl.foldl (fun acc gr =>
        if gr.1 ∈ (∅ : Finset GeneId) then acc + |gr.2 ^ p| else acc) init = init by
    simpa [hit_denominator] using h 0
  intro init
  induction rl generalizing init with
  | nil => rfl
  | cons gr rest ih => simpa using ih init

/-- Counting loop of estimate_significance_level as a countP. -/
theorem foldl_count_abs_gt (t : ℚ) (l : List ℚ) (acc : ℕ) :
    l.foldl (fun a x => if |x| > t then a + 1 else a) acc =
      acc + l.countP (fun x => decide (|x| > t)) := by
  induction l generalizing acc with
  | nil => simp
  | cons x rest ih =>
    by_cases hx : |x| > t <;> simp [List.countP_cons, hx, ih] <;> omega

/-! ## C1 -/

/-- C1: the claim says the enrichment score is the signed peak of
diff = running_hit_sum - running_miss_sum with the miss sum GROWING by
1/(n-nh) on each miss (misses drive diff downward).  The source instead
DECREMENTS running_sum_statistic_misses and then subtracts it, so every
miss pushes diff upward.  At ranked list [(g0,1),(g1,1)], gene set {g0},
p = 1 (n = 2, nh = 1, hit_denominator = 1, non-zero), the source returns
2 while the walk worded by the spec yields 1. -/
theorem C1_miss_direction_diverges :
    calculate_enrichment_score 1 [(0, 1), (1, 1)] {0} = .ok (false, 2) ∧
    enrichment_score_per_spec 1 [(0, 1), (1, 1)] {0} = 1 ∧
    (2 : ℚ) ≠ 1 := by
  refine ⟨?_, ?_, by norm_num⟩
  · simp [calculate_enrichment_score, hit_denominator, esWalk]
    norm_num
  · simp [enrichment_score_per_spec, hit_denominator, specWalk]
    norm_num

/-! ## C3 -/

/-- C3 counterexample: with nh = 0 (empty gene set) and n = 2 the claim
demands an InputInconsistency error, but calculate_enrichment_score
silently computes: it returns the score 0 (with a warning), raising
nothing. -/
theorem C3_counterexample_nh_zero_computes :
    calculate_enrichment_score 1 [(0, 1), (1, 1)] (∅ : Finset GeneId)
        = .ok (true, 0) ∧
    ∀ e : PyErr,
      calculate_enrichment_score 1 [(0, 1), (1, 1)] (∅ : Finset GeneId)
        ≠ .error e := by
  constructor
  · simp [calculate_enrichment_score, hit_denominator_empty]
  · intro e h
    rw [show calculate_enrichment_score 1 [(0, 1), (1, 1)] (∅ : Finset GeneId)
          = .ok (true, 0) by simp [calculate_enrichment_score, hit_denominator_empty]]
      at h
    exact Except.noConfusion h

/-- C3 amended: no InputInconsistency exists in the code.  With nh == n
(which includes nh == 0 on an empty ranked list) the division
1/(n - nh) raises ZeroDivisionError; with nh == 0 and n > 0 the hit
denominator is zero, so the scorer returns enrichment 0 together with a
warning, i.e. it computes a score instead of failing. -/
theorem C3_amended_degenerate_sizes (p : ℕ) (rl : RankedList)
    (S : Finset GeneId) (h : S.card = 0 ∨ S.card = rl.length) :
    calculate_enrichment_score p rl S =
      if S.card = rl.length then .error .zeroDivision
      else .ok (true, 0) := by
  rcases h with h0 | hn
  · by_cases hlen : S.card = rl.length
    · simp only [calculate_enrichment_score, if_pos hlen]
      rw [if_pos (by rw [hlen]; ring)]
    · have hS : S = ∅ := Finset.card_eq_zero.mp h0
      subst hS
      simp only [calculate_enrichment_score, if_neg hlen]
      rw [if_neg (by simp only [Finset.card_empty] at h0 hlen ⊢; omega),
        if_pos (hit_denominator_empty p rl)]
  · simp only [calculate_enrichment_score, if_pos hn]
    rw [if_pos (by rw [hn]; ring)]

/-- C3 witness: the amended statement applied at the concrete nh = 0
counterexample input. -/
theorem C3_amended_degenerate_sizes_witness :
    ((∅ : Finset GeneId).card = 0 ∨
      (∅ : Finset GeneId).card = ([(0, 1), (1, 1)] : RankedList).length) ∧
    calculate_enrichment_score 1 [(0, 1), (1, 1)] (∅ : Finset GeneId) =
      (if (∅ : Finset GeneId).card = ([(0, 1), (1, 1)] : RankedList).length
       then .error .zeroDivision else .ok (true, 0)) :=
  ⟨Or.inl rfl,
    C3_amended_degenerate_sizes 1 [(0, 1), (1, 1)] ∅ (Or.inl rfl)⟩

/-! ## C7 -/

/-- C7: for 0 < nh < n, when the hit denominator (sum of |rank^p| over the
gene set's members) is zero, calculate_enrichment_score returns enrichment
0 immediately, with the warning flag set and no error: the run continues. -/
theorem C7_zero_hit_denominator_warns_and_returns_zero (p : ℕ)
    (rl : RankedList) (S : Finset GeneId)
    (h1 : 0 < S.card) (h2 : S.card < rl.length)
    (h3 : hit_denominator p rl S = 0) :
    calculate_enrichment_score p rl S = .ok (true, 0) := by
  simp only [calculate_enrichment_score]
  rw [if_neg (by omega), if_pos h3]

/-- C7 witness: ranked list [(g0,0),(g1,1)] and gene set {g0}: the only
in-set rank is 0, so the hit denominator vanishes and the scorer returns
0 with a warning. -/
theorem C7_zero_hit_denominator_witness :
    (0 < ({0} : Finset GeneId).card ∧
     ({0} : Finset GeneId).card < ([(0, 0), (1, 1)] : RankedList).length ∧
     hit_denominator 1 [(0, 0), (1, 1)] {0} = 0) ∧
    calculate_enrichment_score 1 [(0, 0), (1, 1)] {0} = .ok (true, 0) :=
  ⟨⟨by decide, by decide, by simp [hit_denominator]⟩,
    C7_zero_hit_denominator_warns_and_returns_zero 1 [(0, 0), (1, 1)] {0}
      (by decide) (by decide) (by simp [hit_denominator])⟩

/-! ## C5 -/

/-- C5: estimate_significance_level picks the positive bucket when the
enrichment score is positive and the negative bucket otherwise, and
returns (number of bucket members of larger absolute value) divided by
the bucket size, with an empty bucket giving 0. -/
theorem C5_nominal_p_value_formula (es : ℚ) (d : ScoreDistribution) :
    estimate_significance_level es d =
      (let bucket := if es > 0 then d.positive_scores else d.negative_scores
       if bucket = [] then 0
       else ((bucket.countP (fun x => decide (|x| > |es|)) : ℚ)
              / (bucket.length : ℚ))) := by
  simp only [estimate_significance_level, List.isEmpty_iff,
    foldl_count_abs_gt, Nat.zero_add]

/-! ## C8 -/

/-- One append adds the score to exactly one bucket: the combined contents
(negative then positive, the iteration order) gain exactly that score. -/
theorem ScoreDistribution.append_toList_perm (d : ScoreDistribution)
    (choice : ℕ → Bool) (k : ℕ) (s : ℚ) :
    List.Perm ((d.append choice k s).1).toList (s :: d.toList) := by
  have hpos : List.Perm (d.negative_scores ++ (d.positive_scores ++ [s]))
      (s :: (d.negative_scores ++ d.positive_scores)) := by
    rw [← List.append_assoc]
    exact List.perm_append_comm
  have hneg : List.Perm ((d.negative_scores ++ [s]) ++ d.positive_scores)
      (s :: (d.negative_scores ++ d.positive_scores)) := by
    rw [List.append_assoc]
    exact List.perm_middle
  unfold ScoreDistribution.append
  split
  · simpa [ScoreDistribution.toList] using hpos
  · split
    · simpa [ScoreDistribution.toList] using hneg
    · split
      · simpa [ScoreDistribution.toList] using hpos
      · simpa [ScoreDistribution.toList] using hneg

/-- Building from a start distribution permutes the start contents plus
the new scores. -/
theorem ScoreDistribution.buildAux_toList_perm (choice : ℕ → Bool) :
    ∀ (scores : List ℚ) (d : ScoreDistribution) (k : ℕ),
      List.Perm ((ScoreDistribution.buildAux choice scores d k).1).toList
        (d.toList ++ scores)
  | [], d, k => by simp [ScoreDistribution.buildAux]
  | s :: rest, d, k => by
    have step := ScoreDistribution.append_toList_perm d choice k s
    have ih := ScoreDistribution.buildAux_toList_perm choice rest
      (d.append choice k s).1 (d.append choice k s).2
    refine (List.Perm.trans ?_ (List.perm_middle.symm))
    simp only [ScoreDistribution.buildAux]
    exact ih.trans (step.append_right rest)

/-- Append preserves "the positive bucket holds only non-negatives". -/
theorem ScoreDistribution.append_pos_nonneg (d : ScoreDistribution)
    (choice : ℕ → Bool) (k : ℕ) (s : ℚ)
    (hd : ∀ x ∈ d.positive_scores, 0 ≤ x) :
    ∀ x ∈ ((d.append choice k s).1).positive_scores, 0 ≤ x := by
  unfold ScoreDistribution.append
  split
  · intro x hx
    rcases List.mem_append.mp hx with hx | hx
    · exact hd x hx
    · simp at hx; subst hx; linarith
  · split
    · exact hd
    · split
      · intro x hx
        rcases List.mem_append.mp hx with hx | hx
        · exact hd x hx
        · simp at hx; subst hx; linarith
      · exact hd

/-- Append preserves "the negative bucket holds only non-positives". -/
theorem ScoreDistribution.append_neg_nonpos (d : ScoreDistribution)
    (choice : ℕ → Bool) (k : ℕ) (s : ℚ)
    (hd : ∀ x ∈ d.negative_scores, x ≤ 0) :
    ∀ x ∈ ((d.append choice k s).1).negative_scores, x ≤ 0 := by
  unfold ScoreDistribution.append
  split
  · exact hd
  · split
    · intro x hx
      rcases List.mem_append.mp hx with hx | hx
      · exact hd x hx
      · simp at hx; subst hx; linarith
    · split
      · exact hd
      · intro x hx
        rcases List.mem_append.mp hx with hx | hx
        · exact hd x hx
        · simp at hx
          subst hx
          linarith

/-- The build loop preserves the positive-bucket sign invariant. -/
theorem ScoreDistribution.buildAux_pos_nonneg (choice : ℕ → Bool) :
    ∀ (scores : List ℚ) (d : ScoreDistribution) (k : ℕ),
      (∀ x ∈ d.positive_scores, 0 ≤ x) →
      ∀ x ∈ ((ScoreDistribution.buildAux choice scores d k).1).positive_scores,
        0 ≤ x
  | [], d, k, hd => hd
  | s :: rest, d, k, hd =>
    ScoreDistribution.buildAux_pos_nonneg choice rest _ _
      (ScoreDistribution.append_pos_nonneg d choice k s hd)

/-- The build loop preserves the negative-bucket sign invariant. -/
theorem ScoreDistribution.buildAux_neg_nonpos (choice : ℕ → Bool) :
    ∀ (scores : List ℚ) (d : ScoreDistribution) (k : ℕ),
      (∀ x ∈ d.negative_scores, x ≤ 0) →
      ∀ x ∈ ((ScoreDistribution.buildAux choice scores d k).1).negative_scores,
        x ≤ 0
  | [], d, k, hd => hd
  | s :: rest, d, k, hd =>
    ScoreDistribution.buildAux_neg_nonpos choice rest _ _
      (ScoreDistribution.append_neg_nonpos d choice k s hd)

/-- Every append grows the reported length by one. -/
theorem ScoreDistribution.append_len (d : ScoreDistribution)
    (choice : ℕ → Bool) (k : ℕ) (s : ℚ) :
    ((d.append choice k s).1).len = d.len + 1 := by
  unfold ScoreDistribution.append
  split
  · simp [ScoreDistribution.len]; omega
  · split
    · simp [ScoreDistribution.len]; omega
    · split
      · simp [ScoreDistribution.len]; omega
      · simp [ScoreDistribution.len]; omega

/-- The build loop grows the reported length by the number of scores. -/
theorem ScoreDistribution.buildAux_len (choice : ℕ → Bool) :
    ∀ (scores : List ℚ) (d : ScoreDistribution) (k : ℕ),
      ((ScoreDistribution.buildAux choice scores d k).1).len
        = d.len + scores.length
  | [], d, k => by simp [ScoreDistribution.buildAux]
  | s :: rest, d, k => by
    simp only [ScoreDistribution.buildAux]
    rw [ScoreDistribution.buildAux_len choice rest _ _,
      ScoreDistribution.append_len]
    simp
    omega

/-- C8: a ScoreDistribution built from a list of scores holds, across its
two buckets (iterated negatives first, then positives), exactly the input
multiset; the positive bucket holds only scores ≥ 0 and the negative one
only scores ≤ 0 (so every score > 0 lands in the positive bucket with its
full multiplicity and every score < 0 in the negative one, while an exact
0 goes to the bucket picked by the RNG oracle); and the reported length
equals the input length. -/
theorem C8_score_distribution_build (choice : ℕ → Bool) (k : ℕ)
    (scores : List ℚ) :
    List.Perm ((ScoreDistribution.build choice k scores).1).toList scores ∧
    (∀ x ∈ ((ScoreDistribution.build choice k scores).1).positive_scores,
      0 ≤ x) ∧
    (∀ x ∈ ((ScoreDistribution.build choice k scores).1).negative_scores,
      x ≤ 0) ∧
    (∀ x : ℚ, 0 < x →
      ((ScoreDistribution.build choice k scores).1).positive_scores.count x
        = scores.count x) ∧
    (∀ x : ℚ, x < 0 →
      ((ScoreDistribution.build choice k scores).1).negative_scores.count x
        = scores.count x) ∧
    ((ScoreDistribution.build choice k scores).1).len = scores.length := by
  have hperm :
      List.Perm ((ScoreDistribution.build choice k scores).1).toList scores := by
    simpa [ScoreDistribution.build, ScoreDistribution.toList] using
      ScoreDistribution.buildAux_toList_perm choice scores ⟨[], []⟩ k
  have hpos :
      ∀ x ∈ ((ScoreDistribution.build choice k scores).1).positive_scores,
        0 ≤ x :=
    ScoreDistribution.buildAux_pos_nonneg choice scores ⟨[], []⟩ k (by simp)
  have hneg :
      ∀ x ∈ ((ScoreDistribution.build choice k scores).1).negative_scores,
        x ≤ 0 :=
    ScoreDistribution.buildAux_neg_nonpos choice scores ⟨[], []⟩ k (by simp)
  have hcount : ∀ x : ℚ,
      ((ScoreDistribution.build choice k scores).1).negative_scores.count x
        + ((ScoreDistribution.build choice k scores).1).positive_scores.count x
        = scores.count x := by
    intro x
    have h := hperm.count_eq x
    simpa [ScoreDistribution.toList, List.count_append] using h
  refine ⟨hperm, hpos, hneg, ?_, ?_, ?_⟩
  · intro x hx
    have hzero :
        ((ScoreDistribution.build choice k scores).1).negative_scores.count x
          = 0 := by
      rw [List.count_eq_zero]
      intro hmem
      exact absurd (hneg x hmem) (not_le.mpr hx)
    have := hcount x
    omega
  · intro x hx
    have hzero :
        ((ScoreDistribution.build choice k scores).1).positive_scores.count x
          = 0 := by
      rw [List.count_eq_zero]
      intro hmem
      exact absurd (hpos x hmem) (not_le.mpr hx)
    have := hcount x
    omega
  · simpa [ScoreDistribution.build, ScoreDistribution.len] using
      ScoreDistribution.buildAux_len choice scores ⟨[], []⟩ k

/-! ## FDR computation (gsea.py, GeneralisedGSEA.compute_fdr) -/

/-- An analyzed gene set, as mutated by analyze_gene_set: the stored
enrichment (normalized when normalization is on), the nominal p-value,
and the stored null distribution. -/
structure AnalyzedSet where
  name : String
  enrichment : ℚ
  nominal_p_value : ℚ
  null_distribution : ScoreDistribution
  deriving DecidableEq

/-- compute_fdr inner generator: sum(1 for x in other.null_distribution
if is_more_extreme(x, normalized_enrichment)). -/
def count_more_extreme (d : ScoreDistribution) (enrichment : ℚ) : ℕ :=
  d.toList.countP (fun x => is_more_extreme x enrichment)

/-- The single loop of compute_fdr accumulating the four counters
(more_extreme_random, all_random, more_extreme_observed, observations).
Python skips `other_set == gene_set` by object identity; the embedding
tracks positions, `i` being the position of the gene set under scrutiny
and `j` the position of the loop head. -/
def fdrCountersAux (g : AnalyzedSet) (i : ℕ) :
    List AnalyzedSet → ℕ → ℕ × ℕ × ℕ × ℕ → ℕ × ℕ × ℕ × ℕ
  | [], _, acc => acc
  | h :: rest, j, (mer, ar, meo, obs) =>
    if j = i then fdrCountersAux g i rest (j + 1) (mer, ar, meo, obs)
    else
      fdrCountersAux g i rest (j + 1)
        (mer + count_more_extreme h.null_distribution g.enrichment,
         ar + h.null_distribution.len,
         meo + (if is_more_extreme h.enrichment g.enrichment then 1 else 0),
         obs + 1)

/-- The fdr value compute_fdr stores on the gene set at position i of the
analyzed collection: 0 if no random score is more extreme, None
(Python None, modelled as Option.none) if the observed denominator is
falsy, and the ratio of ratios otherwise. -/
def fdr_value (H : List AnalyzedSet) (i : ℕ) : Option ℚ :=
  match H.get? i with
  | none => none
  | some g =>
    let c := fdrCountersAux g i H 0 (0, 0, 0, 0)
    if c.1 = 0 then some 0
    else
      let nominator : ℚ := (c.1 : ℚ) / (c.2.1 : ℚ)
      let denominator : ℚ := (c.2.2.1 : ℚ) / (c.2.2.2 : ℚ)
      if denominator = 0 then none else some (nominator / denominator)

/-- compute_fdr assigns one fdr per analyzed gene set, in order. -/
def compute_fdr (H : List AnalyzedSet) : List (Option ℚ) :=
  (List.range H.length).map (fun i => fdr_value H i)

/-- FDR as WORDED BY THE CLAIM (spec.md §4.7): more_extreme_random and
all_random range over ALL h in H, only more_extreme_observed excludes g,
and observations = |H| - 1. -/
def fdr_value_per_spec (H : List AnalyzedSet) (i : ℕ) : Option ℚ :=
  match H.get? i with
  | none => none
  | some g =>
    let mer :=
      (H.map (fun h => count_more_extreme h.null_distribution g.enrichment)).sum
    let ar := (H.map (fun h => h.null_distribution.len)).sum
    let meo :=
      ((H.eraseIdx i).filter
        (fun h => is_more_extreme h.enrichment g.enrichment)).length
    let obs := H.length - 1
    if mer = 0 then some 0
    else if meo = 0 then none
    else some (((mer : ℚ) / (ar : ℚ)) / ((meo : ℚ) / (obs : ℚ)))

/-- Loop aggregate when the skipped position lies strictly before the
remaining suffix: nothing further is skipped. -/
theorem fdrCountersAux_no_skip (g : AnalyzedSet) (i : ℕ) :
    ∀ (L : List AnalyzedSet) (j a b c d : ℕ), i < j →
      fdrCountersAux g i L j (a, b, c, d) =
        (a + (L.map
            (fun h => count_more_extreme h.null_distribution g.enrichment)).sum,
         b + (L.map (fun h => h.null_distribution.len)).sum,
         c + (L.filter
            (fun h => is_more_extreme h.enrichment g.enrichment)).length,
         d + L.length)
  | [], j, a, b, c, d, hij => by simp [fdrCountersAux]
  | h :: rest, j, a, b, c, d, hij => by
    simp only [fdrCountersAux, if_neg (by omega : ¬ j = i)]
    rw [fdrCountersAux_no_skip g i rest (j + 1) _ _ _ _ (by omega)]
    by_cases hm : is_more_extreme h.enrichment g.enrichment
    · simp [hm, List.filter_cons, Prod.ext_iff]
      omega
    · simp [hm, List.filter_cons, Prod.ext_iff]
      omega

/-- Loop aggregate when the skipped position i falls inside the remaining
suffix (head position j ≤ i): the loop sums over the suffix with the
element at offset i - j removed. -/
theorem fdrCountersAux_skip (g : AnalyzedSet) (i : ℕ) :
    ∀ (L : List AnalyzedSet) (j a b c d : ℕ), j ≤ i → i - j < L.length →
      fdrCountersAux g i L j (a, b, c, d) =
        (a + ((L.eraseIdx (i - j)).map
            (fun h => count_more_extreme h.null_distribution g.enrichment)).sum,
         b + ((L.eraseIdx (i - j)).map (fun h => h.null_distribution.len)).sum,
         c + ((L.eraseIdx (i - j)).filter
            (fun h => is_more_extreme h.enrichment g.enrichment)).length,
         d + (L.eraseIdx (i - j)).length)
  | [], j, a, b, c, d, hji, hlt => by simp at hlt
  | h :: rest, j, a, b, c, d, hji, hlt => by
    by_cases hj : j = i
    · subst hj
      have h0 : j - j = 0 := by omega
      simp only [fdrCountersAux, if_pos rfl, h0, List.eraseIdx_cons_zero]
      exact fdrCountersAux_no_skip g j rest (j + 1) a b c d (by omega)
    · have hlt' : j < i := by omega
      have hsucc : i - j = (i - (j + 1)) + 1 := by omega
      simp only [fdrCountersAux, if_neg (by omega : ¬ j = i), hsucc,
        List.eraseIdx_cons_succ]
      rw [fdrCountersAux_skip g i rest (j + 1) _ _ _ _ (by omega)
        (by simp at hlt; omega)]
      by_cases hm : is_more_extreme h.enrichment g.enrichment
      · simp [hm, List.filter_cons, Prod.ext_iff]
        omega
      · simp [hm, List.filter_cons, Prod.ext_iff]
        omega

/-! ## C4 -/

/-- C4 counterexample: H = [g, h] with g.enrichment 1, null(g) = [2],
h.enrichment 3, null(h) = [1/2].  The claim's formula (random sums over
ALL of H, g's own null included) yields FDR(g) = (1/2)/(1/1) = 1/2, but
compute_fdr skips g itself everywhere, finds more_extreme_random = 0 and
stores 0. -/
theorem C4_counterexample_self_null_ignored :
    compute_fdr
        [⟨"g", 1, 0, ⟨[], [2]⟩⟩, ⟨"h", 3, 0, ⟨[], [1/2]⟩⟩]
      = [some 0, some 0] ∧
    fdr_value_per_spec
        [⟨"g", 1, 0, ⟨[], [2]⟩⟩, ⟨"h", 3, 0, ⟨[], [1/2]⟩⟩] 0
      = some (1/2) ∧
    (some (0 : ℚ)) ≠ (some (1/2 : ℚ)) := by
  have habs : |(1/2 : ℚ)| = 1/2 := abs_of_nonneg (by norm_num)
  refine ⟨?_, ?_, by norm_num⟩
  · norm_num [compute_fdr, fdr_value, fdrCountersAux, count_more_extreme,
      ScoreDistribution.toList, ScoreDistribution.len, is_more_extreme,
      List.countP_cons, List.range_succ, habs]
  · norm_num [fdr_value_per_spec, count_more_extreme,
      ScoreDistribution.toList, ScoreDistribution.len, is_more_extreme,
      List.countP_cons, List.filter_cons, habs]

/-- C4 amended: compute_fdr assigns, to the set g at position i, the
claimed formula with every aggregate taken self-exclusively (h ≠ g): the
random sums more_extreme_random and all_random also skip g's own null
distribution, not only the observed count; the zero short-circuits apply
to these self-exclusive counters. -/
theorem C4_amended_self_exclusive_fdr (H : List AnalyzedSet) (i : ℕ)
    (g : AnalyzedSet) (hg : H.get? i = some g) :
    fdr_value H i =
      (let others := H.eraseIdx i
       let mer := (others.map
         (fun h => count_more_extreme h.null_distribution g.enrichment)).sum
       let ar := (others.map (fun h => h.null_distribution.len)).sum
       let meo := (others.filter
         (fun h => is_more_extreme h.enrichment g.enrichment)).length
       let obs := H.length - 1
       if mer = 0 then some 0
       else if meo = 0 then none
       else some (((mer : ℚ) / (ar : ℚ)) / ((meo : ℚ) / (obs : ℚ)))) := by
  have hi : i < H.length := by
    by_contra hcon
    rw [List.get?_eq_none.mpr (by omega)] at hg
    cases hg
  have hskip := fdrCountersAux_skip g i H 0 0 0 0 0 (Nat.zero_le i)
    (by simpa using hi)
  simp only [Nat.sub_zero] at hskip
  have hlen : (H.eraseIdx i).length = H.length - 1 := by
    rw [List.length_eraseIdx]
    simp [hi]
  simp only [fdr_value, hg, hskip, Nat.zero_add]
  by_cases hmer :
      ((H.eraseIdx i).map
        (fun h => count_more_extreme h.null_distribution g.enrichment)).sum = 0
  · simp [hmer]
  · have hne : H.eraseIdx i ≠ [] := by
      intro hnil
      rw [hnil] at hmer
      simp at hmer
    have hobs : 0 < (H.eraseIdx i).length := List.length_pos.mpr hne
    have hobsq : ((H.eraseIdx i).length : ℚ) ≠ 0 := by
      exact_mod_cast Nat.pos_iff_ne_zero.mp hobs
    by_cases hmeo :
        ((H.eraseIdx i).filter
          (fun h => is_more_extreme h.enrichment g.enrichment)).length = 0
    · simp [hmer, hmeo, hlen]
    · have hden :
          (((H.eraseIdx i).filter
            (fun h => is_more_extreme h.enrichment g.enrichment)).length : ℚ)
            / (((H.eraseIdx i).length : ℚ)) ≠ 0 := by
        apply div_ne_zero
        · exact_mod_cast hmeo
        · exact hobsq
      rw [if_neg hmer, if_neg hmer, if_neg hden, if_neg hmeo, hlen]

/-- C4 witness: the amended statement applied at the counterexample
collection, position 0. -/
theorem C4_amended_self_exclusive_fdr_witness :
    (([⟨"g", 1, 0, ⟨[], [2]⟩⟩, ⟨"h", 3, 0, ⟨[], [1/2]⟩⟩] :
        List AnalyzedSet).get? 0 = some ⟨"g", 1, 0, ⟨[], [2]⟩⟩) ∧
    fdr_value [⟨"g", 1, 0, ⟨[], [2]⟩⟩, ⟨"h", 3, 0, ⟨[], [1/2]⟩⟩] 0 =
      (let others :=
        ([⟨"g", 1, 0, ⟨[], [2]⟩⟩, ⟨"h", 3, 0, ⟨[], [1/2]⟩⟩] :
          List AnalyzedSet).eraseIdx 0
       let mer := (others.map
         (fun h => count_more_extreme h.null_distribution (1 : ℚ))).sum
       let ar := (others.map (fun h => h.null_distribution.len)).sum
       let meo := (others.filter
         (fun h => is_more_extreme h.enrichment (1 : ℚ))).length
       let obs :=
        ([⟨"g", 1, 0, ⟨[], [2]⟩⟩, ⟨"h", 3, 0, ⟨[], [1/2]⟩⟩] :
          List AnalyzedSet).length - 1
       if mer = 0 then some 0
       else if meo = 0 then none
       else some (((mer : ℚ) / (ar : ℚ)) / ((meo : ℚ) / (obs : ℚ)))) :=
  ⟨rfl,
    C4_amended_self_exclusive_fdr
      [⟨"g", 1, 0, ⟨[], [2]⟩⟩, ⟨"h", 3, 0, ⟨[], [1/2]⟩⟩] 0
      ⟨"g", 1, 0, ⟨[], [2]⟩⟩ rfl⟩

/-! ## Worker pool (multiprocess.py) -/

/-- An entry of the shared task queue: a work item or the STOP sentinel
that is enqueued once per worker after all tasks. -/
inductive QueueEntry (α : Type) where
  | item (x : α)
  | stop

/-- multiprocess.py, worker: drain the input queue; a falsy item
(`if not data`) is skipped; on STOP return; otherwise call
func(data, args) — its return value is DISCARDED — and append `data`
itself to the shared output list.  `falsy` embeds Python truthiness of
the item type. -/
def worker (func : α → β) (falsy : α → Bool) :
    List (QueueEntry α) → List α → List α
  | [], output => output
  | .item x :: rest, output =>
    if falsy x then worker func falsy rest output
    else
      let _ := func x
      worker func falsy rest (output ++ [x])
  | .stop :: _, output => output

/-- multiprocess.py, Pool.map with processes == 1: plain in-process map
over the items, returning the results of func. -/
def pool_map_single (func : α → β) (items : List α) : List β :=
  items.map func

/-- multiprocess.py, Pool.map with processes = N > 1: every item is
enqueued, then one STOP per worker, and the workers drain the queue into
the shared results list.  The combined contents of the results list are
schedule-independent, so the embedding lets a single worker drain the
whole queue. -/
def pool_map_multi (func : α → β) (falsy : α → Bool) (items : List α) :
    List α :=
  worker func falsy (items.map QueueEntry.item ++ [QueueEntry.stop]) []

/-! ## C9 -/

/-- C9: on the repository's own worker test input
(tests/test_multiprocess/test_pool.py::test_worker: func adds 5, queue
holds 0, 1, 2 then STOP, expected output [5, 6, 7]) the single-process
Pool.map returns the function's results [5, 6, 7], while the
multi-process path appends the raw inputs, dropping the falsy item 0,
and yields [1, 2]: the two modes do not return the same set of result
records. -/
theorem C9_pool_map_modes_disagree :
    pool_map_single (fun x : ℤ => x + 5) [0, 1, 2] = [5, 6, 7] ∧
    pool_map_multi (fun x : ℤ => x + 5) (fun x => decide (x = 0)) [0, 1, 2]
      = [1, 2] ∧
    (pool_map_single (fun x : ℤ => x + 5) [0, 1, 2]).toFinset ≠
      (pool_map_multi (fun x : ℤ => x + 5) (fun x => decide (x = 0))
        [0, 1, 2]).toFinset := by
  refine ⟨by decide, by decide, by decide⟩

/-! ## Data model (models.py) and the analysis pipeline (gsea.py) -/

/-- models.py, Sample: expression values per gene.  geneOrder is the key
order of the data dict (Python dicts iterate in insertion order); expr is
the lookup data[gene], total here because the pipeline only queries genes
of the collection's shared universe. -/
structure Sample where
  geneOrder : List GeneId
  expr : GeneId → ℚ

/-- models.py, SampleCollection: a list of samples (its name plays no
role in the engine and is dropped). -/
structure SampleCollection where
  samples : List Sample

/-- SampleCollection.genes: the gene keys of the first sample
(self.samples[0].genes); IndexError on an empty collection. -/
def SampleCollection.genes (c : SampleCollection) :
    Except PyErr (List GeneId) :=
  match c.samples with
  | [] => .error .indexError
  | s :: _ => .ok s.geneOrder

/-- SampleCollection.of_gene: this gene's values across the samples. -/
def SampleCollection.of_gene (c : SampleCollection) (g : GeneId) : List ℚ :=
  c.samples.map (fun s => s.expr g)

/-- SampleCollection.__add__: concatenate the sample lists. -/
def SampleCollection.add (a b : SampleCollection) : SampleCollection :=
  ⟨a.samples ++ b.samples⟩

/-- models.py, Experiment. -/
structure Experiment where
  case : SampleCollection
  control : SampleCollection

/-- State of the gene shuffler and of the global RNG draws: the
permutation list shuffled in place round after round, the count of
shuffle draws and the count of random.choice draws consumed so far. -/
structure RngState where
  permutation : List GeneId
  shuffles : ℕ
  choices : ℕ
  deriving DecidableEq

/-- An analyzed result record, reordered by the pool; see AnalyzedSet. -/
abbrev AnalyzedList := List AnalyzedSet

/-- GeneralisedGSEA configuration (__init__ arguments that the claims
touch) together with the oracles replacing Python's global RNG
(shuffle, choice) and the unordered pool collection order (reorder). -/
structure GseaConfig where
  p : ℕ
  permutations : ℕ
  normalize_es : Bool
  descending_sort : Bool
  min_genes : ℕ
  max_genes : ℕ
  metric : List ℚ → List ℚ → ℚ
  shuffle : ℕ → List GeneId → List GeneId
  choice : ℕ → Bool
  reorder : AnalyzedList → AnalyzedList

/-- Python sorted(ranked, key=itemgetter(1), reverse=descending) is a
stable sort on the rank; insertion sort is stable too. -/
def pySortRanked (descending : Bool) (l : RankedList) : RankedList :=
  if descending then List.insertionSort (fun a b => b.2 ≤ a.2) l
  else List.insertionSort (fun a b => a.2 ≤ b.2) l

/-- The list comprehension of create_ranked_gene_list: one
(label, metric value) pair per gene, labels passed through the
labels_map dict when present (KeyError on a missing gene). -/
def rankGenes (metric : List ℚ → List ℚ → ℚ) (case control : SampleCollection)
    (labels_map : Option (List (GeneId × GeneId))) :
    List GeneId → Except PyErr RankedList
  | [] => .ok []
  | g :: rest => do
    let label ←
      match labels_map with
      | none => .ok g
      | some m =>
        match m.lookup g with
        | none => .error .keyError
        | some g2 => .ok g2
    let restRanked ← rankGenes metric case control labels_map rest
    .ok ((label, metric (case.of_gene g) (control.of_gene g)) :: restRanked)

/-- gsea.py, create_ranked_gene_list: assert equal gene universes (dict
key views compare as sets, AssertionError otherwise), one metric value
per gene in the case key order, optionally relabelled, stable-sorted by
rank, descending by default. -/
def create_ranked_gene_list (cfg : GseaConfig)
    (case control : SampleCollection)
    (labels_map : Option (List (GeneId × GeneId))) :
    Except PyErr RankedList := do
  let case_genes ← case.genes
  let control_genes ← control.genes
  if case_genes.toFinset = control_genes.toFinset then
    let ranked ← rankGenes cfg.metric case control labels_map case_genes
    .ok (pySortRanked cfg.descending_sort ranked)
  else
    .error .assertionError

/-- numpy mean of a list of floats, as an exact rational (only ever used
on non-empty lists by normalize_enrichment). -/
def pyMean (l : List ℚ) : ℚ :=
  l.sum / (l.length : ℚ)

/-- gsea.py, normalize_enrichment: scores > 0 divide by the mean of the
positive null bucket, scores < 0 by |mean| of the negative bucket, zero
maps to zero; a needed but missing mean (empty bucket, or a mean of 0.0,
falsy in Python, for the negative side) leaves None and score/None raises
TypeError.  The normalized null is rebuilt through the ScoreDistribution
constructor first (consuming RNG choices for zeros, counter ck), then the
score itself is normalized, as in the source's return line.  (numpy would
produce ±inf when a like-signed score divides by a mean of exactly 0.0;
that float corner lies outside the rational model and outside every path
proved below.) -/
def normalize_enrichment (cfg : GseaConfig) (enrichment_score : ℚ)
    (null_distribution : ScoreDistribution) (ck : ℕ) :
    Except PyErr (ℚ × ScoreDistribution × ℕ) :=
  if cfg.normalize_es = false then
    .ok (enrichment_score, null_distribution, ck)
  else
    let mean_positive : Option ℚ :=
      if null_distribution.positive_scores.isEmpty then none
      else some (pyMean null_distribution.positive_scores)
    let mean_negative : Option ℚ :=
      if null_distribution.negative_scores.isEmpty then none
      else some (pyMean null_distribution.negative_scores)
    let mean_negative_abs : Option ℚ :=
      match mean_negative with
      | none => none
      | some v => if v = 0 then none else some |v|
    let normalized : ℚ → Except PyErr ℚ := fun score =>
      if score > 0 then
        match mean_positive with
        | some m => .ok (score / m)
        | none => .error .typeError
      else if score < 0 then
        match mean_negative_abs with
        | some m => .ok (score / m)
        | none => .error .typeError
      else .ok 0
    do
      let normalized_scores ← null_distribution.toList.mapM normalized
      let built := ScoreDistribution.build cfg.choice ck normalized_scores
      let nes ← normalized enrichment_score
      .ok (nes, built.1, built.2)

/-- shufflers.py, GeneShuffler.permute_and_score: random.shuffle permutes
self.permutation in place (the shuffle oracle applied to the current
permutation at the current draw index), then ranks with
labels_map = dict(zip(gene_labels, permutation)) and scores the targeted
gene set against the resulting list. -/
def gene_permute_and_score (cfg : GseaConfig) (e : Experiment)
    (gene_labels : List GeneId) (S : GeneSet) (st : RngState) :
    Except PyErr (ℚ × RngState) := do
  let perm := cfg.shuffle st.shuffles st.permutation
  let ranked ← create_ranked_gene_list cfg e.case e.control
    (some (gene_labels.zip perm))
  let ws ← calculate_enrichment_score cfg.p ranked S.genes
  .ok (ws.2, ⟨perm, st.shuffles + 1, st.choices⟩)

/-- gsea.py, enrichments_for_permuted_labels loop body: permutations
rounds of permute_and_score, each score appended to the growing
ScoreDistribution (zero scores consume RNG choices). -/
def enrichments_loop (cfg : GseaConfig) (e : Experiment)
    (gene_labels : List GeneId) (S : GeneSet) :
    ℕ → RngState → ScoreDistribution →
      Except PyErr (ScoreDistribution × RngState)
  | 0, st, d => .ok (d, st)
  | r + 1, st, d => do
    let sc ← gene_permute_and_score cfg e gene_labels S st
    let dk := d.append cfg.choice sc.2.choices sc.1
    enrichments_loop cfg e gene_labels S r
      ⟨sc.2.permutation, sc.2.shuffles, dk.2⟩ dk.1

/-- gsea.py, enrichments_for_permuted_labels: es_null starts empty. -/
def enrichments_for_permuted_labels (cfg : GseaConfig) (e : Experiment)
    (gene_labels : List GeneId) (S : GeneSet) (st : RngState) :
    Except PyErr (ScoreDistribution × RngState) :=
  enrichments_loop cfg e gene_labels S cfg.permutations st ⟨[], []⟩

/-- gsea.py, analyze_gene_set: raw enrichment score on the real ranked
list, null distribution from permutations, nominal p from the RAW score
and RAW null, then normalization; the record stores the NORMALIZED
enrichment, the nominal p-value and the RAW null distribution — the
normalized null distribution returned by normalize_enrichment is
discarded. -/
def analyze_gene_set (cfg : GseaConfig) (e : Experiment)
    (gene_labels : List GeneId) (ranked_list : RankedList) (S : GeneSet)
    (st : RngState) : Except PyErr (AnalyzedSet × RngState) := do
  let ws ← calculate_enrichment_score cfg.p ranked_list S.genes
  let nd ← enrichments_for_permuted_labels cfg e gene_labels S st
  let nominal_p_value := estimate_significance_level ws.2 nd.1
  let norm ← normalize_enrichment cfg ws.2 nd.1 nd.2.choices
  .ok (⟨S.name, norm.1, nominal_p_value, nd.1⟩,
    ⟨nd.2.permutation, nd.2.shuffles, norm.2.2⟩)

/-- signatures.py GeneSet.restrict_to_genes plus gsea.py trim_gene_sets:
drop the genes absent from the experiment's universe, then keep only the
gene sets whose trimmed size lies within [min_genes, max_genes]. -/
def trim_gene_sets (cfg : GseaConfig) (gene_sets : List GeneSet)
    (univ : Finset GeneId) : List GeneSet :=
  (gene_sets.map (fun s => GeneSet.mk s.name (s.genes ∩ univ))).filter
    (fun s => cfg.min_genes ≤ s.genes.card ∧ s.genes.card ≤ cfg.max_genes)

/-- The sequential analysis of every gene set, threading the RNG state
(processes == 1 semantics; with several worker processes only the
collection ORDER differs, which pool_imap's oracle models). -/
def analyze_all (cfg : GseaConfig) (e : Experiment)
    (gene_labels : List GeneId) (ranked_list : RankedList) :
    List GeneSet → RngState → Except PyErr (AnalyzedList × RngState)
  | [], st => .ok ([], st)
  | S :: rest, st => do
    let a ← analyze_gene_set cfg e gene_labels ranked_list S st
    let tail ← analyze_all cfg e gene_labels ranked_list rest a.2
    .ok (a.1 :: tail.1, tail.2)

/-- Modelled from the spec: Pool.imap is called by run() and exercised by
the repository's tests, but src/methods/gsea/multiprocess.py defines no
imap (nor the STOP constant those tests import) — the method is missing
from the sources.  spec.md §4.8 specifies map/imap as applying the
function to every item with shared constant arguments, with NO guarantee
on result order (first-finished-first-returned).  The embedding analyzes
the items and passes the collected list to the order oracle reorder; a
faithful oracle is any permutation. -/
def pool_imap (cfg : GseaConfig) (e : Experiment) (gene_labels : List GeneId)
    (ranked_list : RankedList) (gene_sets : List GeneSet) (st : RngState) :
    Except PyErr (AnalyzedList × RngState) := do
  let r ← analyze_all cfg e gene_labels ranked_list gene_sets st
  .ok (cfg.reorder r.1, r.2)

/-- signatures.py, GeneSet.__lt__: gene sets order by their (stored)
enrichment; sorted() produces an ascending order under it. -/
def byEnrichment (a b : AnalyzedSet) : Prop :=
  a.enrichment ≤ b.enrichment

instance : DecidableRel byEnrichment := fun a b =>
  inferInstanceAs (Decidable (a.enrichment ≤ b.enrichment))

instance : IsTotal AnalyzedSet byEnrichment :=
  ⟨fun a b => le_total a.enrichment b.enrichment⟩

instance : IsTrans AnalyzedSet byEnrichment :=
  ⟨fun _ _ _ hab hbc => le_trans hab hbc⟩

/-- sorted(gene_sets): Python's stable ascending sort under __lt__. -/
def pySortedByEnrichment (l : AnalyzedList) : AnalyzedList :=
  List.insertionSort byEnrichment l

/-- One row of the GSEAResult table; the columns GSEAResult declares are
name, enrichment, nominal_p_value, fdr. -/
structure ResultRecord where
  name : String
  enrichment : ℚ
  nominal_p_value : ℚ
  fdr : Option ℚ
  deriving DecidableEq

/-- gsea.py, GeneralisedGSEA.run: trim the gene sets to the experiment's
gene universe, build the real ranked list, set up the (gene) shuffler on
the control's gene labels, analyze every surviving gene set through the
pool, sort ascending by the stored enrichment, run compute_fdr over the
sorted collection and return the result rows. -/
def run (cfg : GseaConfig) (e : Experiment) (gene_sets : List GeneSet) :
    Except PyErr (List ResultRecord) := do
  let univ ← e.case.genes
  let trimmed := trim_gene_sets cfg gene_sets univ.toFinset
  let ranked_list ← create_ranked_gene_list cfg e.case e.control none
  let gene_labels ← e.control.genes
  let analyzed ← pool_imap cfg e gene_labels ranked_list trimmed
    ⟨gene_labels, 0, 0⟩
  let sorted_sets := pySortedByEnrichment analyzed.1
  let fdrs := compute_fdr sorted_sets
  .ok ((sorted_sets.zip fdrs).map (fun sf =>
    ⟨sf.1.name, sf.1.enrichment, sf.1.nominal_p_value, sf.2⟩))

/-! ## Phenotype shuffler (shufflers.py) -/

/-- shufflers.py, shuffle_and_divide.  random.shuffle shuffles its
argument in place and RETURNS None; the source binds that return value
(shuffled = shuffle(merged_collection.samples)) and slices it, so
None[:midpoint] raises TypeError before any collection is built.
pyShuffleRet is the value of the shuffle(...) expression.  (Were the
return a list, the source would additionally pass each slice as the
collection's NAME positional argument, leaving its samples empty; that
misuse is unreachable behind the TypeError.) -/
def pyShuffleRet (xs : List Sample) : Option (List Sample) :=
  none

/-- shufflers.py, shuffle_and_divide. -/
def shuffle_and_divide (merged_collection : SampleCollection)
    (midpoint : ℕ) : Except PyErr (SampleCollection × SampleCollection) :=
  match pyShuffleRet merged_collection.samples with
  | none => .error .typeError
  | some shuffled =>
    .ok (⟨shuffled.take midpoint⟩, ⟨shuffled.drop midpoint⟩)

/-- shufflers.py, PhenotypeShuffler: pools case+control samples at
construction (all_samples, cases_cnt); permute_and_score calls
shuffle_and_divide on the pooled samples with midpoint = the original
case count, ranks the random split and scores the targeted gene set. -/
def phenotype_permute_and_score (cfg : GseaConfig) (e : Experiment)
    (S : GeneSet) : Except PyErr ℚ := do
  let all_samples := e.case.add e.control
  let cases_cnt := e.case.samples.length
  let rc ← shuffle_and_divide all_samples cases_cnt
  let ranked ← create_ranked_gene_list cfg rc.1 rc.2 none
  let ws ← calculate_enrichment_score cfg.p ranked S.genes
  .ok ws.2

/-- Bind on a success, by definition. -/
theorem ok_bind_eq {ε α β : Type} (a : α) (f : α → Except ε β) :
    (Except.ok a >>= f) = f a := rfl

/-- Bind on a failure, by definition. -/
theorem error_bind_eq {ε α β : Type} (err : ε) (f : α → Except ε β) :
    ((Except.error err : Except ε α) >>= f) = Except.error err := rfl

/-! ## C6 -/

/-- C6: PhenotypeShuffler.permute_and_score never partitions the pooled
samples nor returns a score: shuffle_and_divide binds the return value of
random.shuffle, which is None, and slicing None raises TypeError on every
call, whatever the experiment or the targeted gene set. -/
theorem C6_phenotype_permute_and_score_crashes (cfg : GseaConfig)
    (e : Experiment) (S : GeneSet) :
    phenotype_permute_and_score cfg e S = .error .typeError := rfl

/-! ## C10 -/

/-- C10: whenever analyze_gene_set succeeds, the record it returns keeps
the RAW null distribution (the one produced by the permutation loop) in
null_distribution — the normalized null distribution nnull returned by
normalize_enrichment is discarded — while enrichment holds the
NORMALIZED score; compute_fdr later reads exactly these two stored
fields, so it counts raw permutation scores against normalized
enrichment values. -/
theorem C10_raw_null_stored_with_normalized_enrichment (cfg : GseaConfig)
    (e : Experiment) (gene_labels : List GeneId) (ranked_list : RankedList)
    (S : GeneSet) (st : RngState) (w : Bool) (es : ℚ)
    (nd : ScoreDistribution × RngState) (nes : ℚ)
    (nnull : ScoreDistribution) (ck : ℕ)
    (hnormalize_on : cfg.normalize_es = true)
    (hes : calculate_enrichment_score cfg.p ranked_list S.genes
      = .ok (w, es))
    (hnd : enrichments_for_permuted_labels cfg e gene_labels S st = .ok nd)
    (hnorm : normalize_enrichment cfg es nd.1 nd.2.choices
      = .ok (nes, nnull, ck)) :
    analyze_gene_set cfg e gene_labels ranked_list S st =
      .ok (⟨S.name, nes, estimate_significance_level es nd.1, nd.1⟩,
        ⟨nd.2.permutation, nd.2.shuffles, ck⟩) := by
  unfold analyze_gene_set
  rw [hes, ok_bind_eq, hnd, ok_bind_eq]
  simp only []
  rw [hnorm, ok_bind_eq]

/-! ## A concrete experiment for witnesses (mirrors the repository's
tests/test_methods/test_gsea minimal_data: two genes, gene 0 with case
expression 2 vs control 1, gene 1 flat at 1, metric = difference of
means, one permutation round with an identity shuffle oracle). -/

/-- Concrete engine configuration used by the witnesses below. -/
def sampleConfig : GseaConfig :=
  ⟨1, 1, true, true, 1, 500, fun c k => pyMean c - pyMean k,
    fun _ l => l, fun _ => true, id⟩

/-- Concrete two-gene experiment used by the witnesses below. -/
def sampleExperiment : Experiment :=
  ⟨⟨[⟨[0, 1], fun g => if g = 0 then 2 else 1⟩]⟩, ⟨[⟨[0, 1], fun _ => 1⟩]⟩⟩

/-- C10 witness: the theorem applied to the concrete experiment; every
stage (scorer, permutation loop, normalizer) is evaluated on it, and the
record analyze_gene_set returns indeed stores the raw null [2] with the
normalized enrichment 1. -/
theorem C10_raw_null_stored_witness :
    sampleConfig.normalize_es = true ∧
    calculate_enrichment_score sampleConfig.p [(0, 1), (1, 0)]
      (({0} : Finset GeneId)) = .ok (false, 2) ∧
    enrichments_for_permuted_labels sampleConfig sampleExperiment [0, 1]
      ⟨"s", {0}⟩ ⟨[0, 1], 0, 0⟩ = .ok (⟨[], [2]⟩, ⟨[0, 1], 1, 0⟩) ∧
    normalize_enrichment sampleConfig 2 ⟨[], [2]⟩ 0
      = .ok (1, ⟨[], [1]⟩, 0) ∧
    analyze_gene_set sampleConfig sampleExperiment [0, 1] [(0, 1), (1, 0)]
      ⟨"s", {0}⟩ ⟨[0, 1], 0, 0⟩ =
      .ok (⟨"s", 1, estimate_significance_level 2 ⟨[], [2]⟩, ⟨[], [2]⟩⟩,
        ⟨[0, 1], 1, 0⟩) := by
  have h1 : calculate_enrichment_score sampleConfig.p [(0, 1), (1, 0)]
      (({0} : Finset GeneId)) = .ok (false, 2) := by
    norm_num [calculate_enrichment_score, hit_denominator, esWalk,
      sampleConfig]
  have h2 : enrichments_for_permuted_labels sampleConfig sampleExperiment
      [0, 1] ⟨"s", {0}⟩ ⟨[0, 1], 0, 0⟩
      = .ok (⟨[], [2]⟩, ⟨[0, 1], 1, 0⟩) := by
    have hbeq1 : ((0 : ℕ) == 0) = true := rfl
    have hbeq2 : ((1 : ℕ) == 0) = false := rfl
    have hbeq3 : ((1 : ℕ) == 1) = true := rfl
    norm_num [hbeq1, hbeq2, hbeq3, enrichments_for_permuted_labels,
      enrichments_loop, gene_permute_and_score, create_ranked_gene_list,
      rankGenes, SampleCollection.genes, SampleCollection.of_gene,
      pySortRanked, pyMean, calculate_enrichment_score, hit_denominator,
      esWalk, ScoreDistribution.append, List.lookup, bind, Except.bind,
      sampleConfig, sampleExperiment]
  have h3 : normalize_enrichment sampleConfig 2 ⟨[], [2]⟩ 0
      = .ok (1, ⟨[], [1]⟩, 0) := by
    norm_num [normalize_enrichment, pyMean, ScoreDistribution.toList,
      ScoreDistribution.build, ScoreDistribution.buildAux,
      ScoreDistribution.append, List.mapM, List.mapM.loop, bind,
      Except.bind, pure, Except.pure, sampleConfig]
  exact ⟨rfl, h1, h2, h3,
    C10_raw_null_stored_with_normalized_enrichment sampleConfig
      sampleExperiment [0, 1] [(0, 1), (1, 0)] ⟨"s", {0}⟩ ⟨[0, 1], 0, 0⟩
      false 2 (⟨[], [2]⟩, ⟨[0, 1], 1, 0⟩) 1 ⟨[], [1]⟩ 0 rfl h1 h2 h3⟩

/-! ## C2 -/

/-- A successful analysis keeps the gene set's name on the record. -/
theorem analyze_gene_set_name (cfg : GseaConfig) (e : Experiment)
    (gene_labels : List GeneId) (ranked_list : RankedList) (S : GeneSet)
    (st : RngState) (a : AnalyzedSet × RngState)
    (h : analyze_gene_set cfg e gene_labels ranked_list S st = .ok a) :
    a.1.name = S.name := by
  unfold analyze_gene_set at h
  cases h1 : calculate_enrichment_score cfg.p ranked_list S.genes with
  | error err => rw [h1, error_bind_eq] at h; exact Except.noConfusion h
  | ok ws =>
    rw [h1, ok_bind_eq] at h
    cases h2 : enrichments_for_permuted_labels cfg e gene_labels S st with
    | error err => rw [h2, error_bind_eq] at h; exact Except.noConfusion h
    | ok nd =>
      rw [h2, ok_bind_eq] at h
      simp only [] at h
      cases h3 : normalize_enrichment cfg ws.2 nd.1 nd.2.choices with
      | error err => rw [h3, error_bind_eq] at h; exact Except.noConfusion h
      | ok norm =>
        rw [h3, ok_bind_eq] at h
        cases h
        rfl

/-- A successful pass of the analysis loop produces one record per gene
set, in order, each keeping its gene set's name. -/
theorem analyze_all_names (cfg : GseaConfig) (e : Experiment)
    (gene_labels : List GeneId) (ranked_list : RankedList) :
    ∀ (gs : List GeneSet) (st : RngState) (r : AnalyzedList × RngState),
      analyze_all cfg e gene_labels ranked_list gs st = .ok r →
      r.1.map (fun a => a.name) = gs.map (fun s => s.name)
  | [], st, r, h => by
    unfold analyze_all at h
    cases h
    rfl
  | S :: rest, st, r, h => by
    unfold analyze_all at h
    cases ha : analyze_gene_set cfg e gene_labels ranked_list S st with
    | error err => rw [ha, error_bind_eq] at h; exact Except.noConfusion h
    | ok a =>
      rw [ha, ok_bind_eq] at h
      cases ht : analyze_all cfg e gene_labels ranked_list rest a.2 with
      | error err => rw [ht, error_bind_eq] at h; exact Except.noConfusion h
      | ok tail =>
        rw [ht, ok_bind_eq] at h
        cases h
        simp only [List.map_cons]
        rw [analyze_gene_set_name cfg e gene_labels ranked_list S st a ha,
          analyze_all_names cfg e gene_labels ranked_list rest a.2 tail ht]

/-- compute_fdr yields one value per analyzed set. -/
theorem compute_fdr_length (H : List AnalyzedSet) :
    (compute_fdr H).length = H.length := by
  simp [compute_fdr]

/-- C2: whenever run succeeds it returns the ordered list of result
records (name, enrichment, nominal_p_value, fdr), sorted ascending by
the stored (normalized) enrichment score, with exactly one record per
surviving (trimmed) gene set — the records' names are a permutation of
the surviving sets' names.  The pool's collection order is the
spec-modelled imap oracle, assumed to be a permutation. -/
theorem C2_run_returns_sorted_records (cfg : GseaConfig) (e : Experiment)
    (gene_sets : List GeneSet) (univ : List GeneId) (L : List ResultRecord)
    (hnormalize_on : cfg.normalize_es = true)
    (hreorder : ∀ l, List.Perm (cfg.reorder l) l)
    (hu : e.case.genes = .ok univ)
    (hrun : run cfg e gene_sets = .ok L) :
    List.Sorted (fun a b : ResultRecord => a.enrichment ≤ b.enrichment) L ∧
    List.Perm (L.map (fun r => r.name))
      ((trim_gene_sets cfg gene_sets univ.toFinset).map (fun s => s.name)) ∧
    L.length = (trim_gene_sets cfg gene_sets univ.toFinset).length := by
  unfold run at hrun
  rw [hu, ok_bind_eq] at hrun
  cases hr : create_ranked_gene_list cfg e.case e.control none with
  | error err => rw [hr, error_bind_eq] at hrun; exact Except.noConfusion hrun
  | ok rl =>
    rw [hr, ok_bind_eq] at hrun
    cases hgl : e.control.genes with
    | error err => rw [hgl, error_bind_eq] at hrun; exact Except.noConfusion hrun
    | ok gl =>
      rw [hgl, ok_bind_eq] at hrun
      unfold pool_imap at hrun
      cases hp : analyze_all cfg e gl rl
          (trim_gene_sets cfg gene_sets univ.toFinset) ⟨gl, 0, 0⟩ with
      | error err =>
        rw [hp, error_bind_eq, error_bind_eq] at hrun
        exact Except.noConfusion hrun
      | ok pr =>
        rw [hp, ok_bind_eq, ok_bind_eq] at hrun
        simp only [Except.ok.injEq] at hrun
        subst hrun
        have hnames : pr.1.map (fun a => a.name)
            = (trim_gene_sets cfg gene_sets univ.toFinset).map
              (fun s => s.name) :=
          analyze_all_names cfg e gl rl _ _ pr hp
        have hsorted_s :
            List.Sorted byEnrichment
              (pySortedByEnrichment (cfg.reorder pr.1)) :=
          List.sorted_insertionSort byEnrichment (cfg.reorder pr.1)
        have hperm_s :
            List.Perm (pySortedByEnrichment (cfg.reorder pr.1))
              (cfg.reorder pr.1) :=
          List.perm_insertionSort byEnrichment (cfg.reorder pr.1)
        have hflen :
            (pySortedByEnrichment (cfg.reorder pr.1)).length ≤
              (compute_fdr (pySortedByEnrichment (cfg.reorder pr.1))).length :=
          le_of_eq (compute_fdr_length _).symm
        have hfst :
            (((pySortedByEnrichment (cfg.reorder pr.1)).zip
              (compute_fdr (pySortedByEnrichment (cfg.reorder pr.1)))).map
                Prod.fst)
              = pySortedByEnrichment (cfg.reorder pr.1) :=
          List.map_fst_zip _ _ hflen
        refine ⟨?_, ?_, ?_⟩
        · have hpw :
              List.Pairwise
                (fun x y : AnalyzedSet × Option ℚ => byEnrichment x.1 y.1)
                ((pySortedByEnrichment (cfg.reorder pr.1)).zip
                  (compute_fdr (pySortedByEnrichment (cfg.reorder pr.1)))) := by
            have hps : List.Pairwise byEnrichment
                ((((pySortedByEnrichment (cfg.reorder pr.1)).zip
                  (compute_fdr
                    (pySortedByEnrichment (cfg.reorder pr.1))))).map
                  Prod.fst) := by
              rw [hfst]
              exact hsorted_s
            exact List.pairwise_map.mp hps
          exact List.Pairwise.map _ (fun a b hab => hab) hpw
        · rw [List.map_map]
          have hmap3 :
              List.map ((fun r : ResultRecord => r.name) ∘
                (fun sf : AnalyzedSet × Option ℚ =>
                  (⟨sf.1.name, sf.1.enrichment, sf.1.nominal_p_value,
                    sf.2⟩ : ResultRecord)))
                ((pySortedByEnrichment (cfg.reorder pr.1)).zip
                  (compute_fdr (pySortedByEnrichment (cfg.reorder pr.1))))
              = (pySortedByEnrichment (cfg.reorder pr.1)).map
                  (fun a => a.name) := by
            have h4 := congrArg (List.map (fun a : AnalyzedSet => a.name)) hfst
            rw [List.map_map] at h4
            exact h4
          rw [hmap3, ← hnames]
          exact ((hperm_s.trans (hreorder pr.1)).map (fun a => a.name))
        · rw [List.length_map, List.length_zip, compute_fdr_length,
            Nat.min_self, hperm_s.length_eq, (hreorder pr.1).length_eq]
          have := congrArg List.length hnames
          simpa using this

/-- C2 witness: the theorem applied to the concrete experiment and the
single gene set {gene 0}: run succeeds with one record per surviving set,
sorted (trivially) by normalized enrichment. -/
theorem C2_run_returns_sorted_records_witness :
    sampleConfig.normalize_es = true ∧
    (∀ l : AnalyzedList, List.Perm (sampleConfig.reorder l) l) ∧
    sampleExperiment.case.genes = .ok [0, 1] ∧
    run sampleConfig sampleExperiment [⟨"s", {0}⟩]
      = .ok [⟨"s", 1, 0, some 0⟩] ∧
    (List.Sorted (fun a b : ResultRecord => a.enrichment ≤ b.enrichment)
        [(⟨"s", 1, 0, some 0⟩ : ResultRecord)] ∧
      List.Perm
        (([(⟨"s", 1, 0, some 0⟩ : ResultRecord)]).map (fun r => r.name))
        ((trim_gene_sets sampleConfig [⟨"s", {0}⟩]
            ([0, 1] : List GeneId).toFinset).map (fun s => s.name)) ∧
      ([(⟨"s", 1, 0, some 0⟩ : ResultRecord)]).length =
        (trim_gene_sets sampleConfig [⟨"s", {0}⟩]
          ([0, 1] : List GeneId).toFinset).length) := by
  have hrun : run sampleConfig sampleExperiment [⟨"s", {0}⟩]
      = .ok [⟨"s", 1, 0, some 0⟩] := by
    have hbeq1 : ((0 : ℕ) == 0) = true := rfl
    have hbeq2 : ((1 : ℕ) == 0) = false := rfl
    have hbeq3 : ((1 : ℕ) == 1) = true := rfl
    norm_num [hbeq1, hbeq2, hbeq3, run, trim_gene_sets, pool_imap,
      analyze_all, analyze_gene_set, enrichments_for_permuted_labels,
      enrichments_loop, gene_permute_and_score, create_ranked_gene_list,
      rankGenes, SampleCollection.genes, SampleCollection.of_gene,
      pySortRanked, pyMean, calculate_enrichment_score, hit_denominator,
      esWalk, ScoreDistribution.append, List.lookup, bind, Except.bind,
      pure, Except.pure, estimate_significance_level,
      normalize_enrichment, ScoreDistribution.toList,
      ScoreDistribution.build, ScoreDistribution.buildAux, List.mapM,
      List.mapM.loop, pySortedByEnrichment, byEnrichment, compute_fdr,
      fdr_value, fdrCountersAux, count_more_extreme, is_more_extreme,
      ScoreDistribution.len, List.countP_cons, List.range_succ,
      sampleConfig, sampleExperiment]
  exact ⟨rfl, fun l => List.Perm.refl l, rfl, hrun,
    C2_run_returns_sorted_records sampleConfig sampleExperiment
      [⟨"s", {0}⟩] [0, 1] [⟨"s", 1, 0, some 0⟩] rfl
      (fun l => List.Perm.refl l) rfl hrun⟩
